import Mathlib

/-
Verification development for the storacha-network/indexing-service query core.

Shallow embedding of:
  * pkg/service/service.go            — job model, jobHandler, Query
  * pkg/providerresults (part_000)    — Equals / CBOR round-trip for provider results
  * pkg/service/providerindex/publisher/store.go — Entries iterator

Go byte strings are `List Nat`; Go maps keyed by strings/CIDs are association
lists; fallible calls return `Except Err`; the collaborating services
(ProviderIndex, ClaimLookup, BlobIndexLookup, metadata decoding) are an
explicit environment of functions, so a handler run is a pure computation.
-/

namespace Storacha

abbrev Bytes := List Nat
abbrev Multihash := Bytes
abbrev DID := Bytes
abbrev Err := Nat

/-- `url.URL` values produced inside the handler: the source's
`fetchClaimUrl` / `fetchRetrievalUrl` are placeholders returning the zero
`url.URL{}`, so the URL type carries no information. -/
abbrev URL := Unit

/-- `cid.Cid`: a codec together with the underlying multihash
(`Cid.Hash()` is the `hash` projection). -/
structure Cid where
  codec : Nat
  hash : Multihash
deriving DecidableEq, Repr

/-- `cid.Raw` multicodec code (0x55). -/
def rawCodec : Nat := 85

/-- `cid.NewCidV1(cid.Raw, mh)` as used in the handler's shard default. -/
def cidNewV1Raw (mh : Multihash) : Cid := ⟨rawCodec, mh⟩

/-- `peer.AddrInfo`: a peer id and its multiaddrs. -/
structure AddrInfo where
  peerId : Bytes
  addrs : List Bytes
deriving DecidableEq, Repr

/-- Model of `peer.AddrInfo.String()`: a deterministic textual rendering of
the id and addresses (the exact format is external to the repo; `Equals`
only ever compares two renderings for equality). -/
def addrInfoString (a : AddrInfo) : Bytes :=
  (a.peerId.length :: a.peerId) ++ a.addrs.length :: (a.addrs.map (fun m => m.length :: m)).flatten

/-- `model.ProviderResult`: context id, metadata bytes and optional
provider address info (`Provider *peer.AddrInfo`). -/
structure ProviderResult where
  contextID : Bytes
  metadata : Bytes
  provider : Option AddrInfo
deriving DecidableEq, Repr

/-- A fetched claim (`delegation.Delegation`), opaque to the traversal. -/
abbrev Claim := Nat

/-! ## providerresults: Equals (src/unnamed/part_000) -/

/-- `equalProvider` from providerresults: nil matches only nil, otherwise
compare `String()` renderings. -/
def equalProvider (a b : Option AddrInfo) : Bool :=
  match a with
  | none => b.isNone
  | some x =>
    match b with
    | none => false
    | some y => addrInfoString x == addrInfoString y

/-- `Equals` from providerresults: byte-equality of contextID and metadata
plus `equalProvider`. -/
def Equals (a b : ProviderResult) : Bool :=
  a.contextID == b.contextID && a.metadata == b.metadata && equalProvider a.provider b.provider

/-! ## providerresults: CBOR list serialisation (spec-modelled)

The Go code delegates to go-ipld-prime's dagcbor codec with the
`providerresults.ipldsch` schema and named-bytes converters for the peer id
and multiaddrs; neither the codec nor that schema file is under src/. -/

/-- Modelled from the spec: a length-prefixed byte-string encoding, the
shape dagcbor gives each bytes field (`contextID`, `metadata`, and the
converter outputs for `peerID` / `Multiaddr`). -/
def encBytes (b : Bytes) : Bytes := b.length :: b

/-- Modelled from the spec: decode one length-prefixed byte string,
returning it and the remaining input. -/
def decBytes : Bytes → Option (Bytes × Bytes)
  | [] => none
  | n :: rest => if n ≤ rest.length then some (rest.take n, rest.drop n) else none

/-- Modelled from the spec: decode a fixed count of items with a given
item decoder (the list shapes in the schema are length-prefixed). -/
def decN {α : Type} (dec : Bytes → Option (α × Bytes)) : Nat → Bytes → Option (List α × Bytes)
  | 0, s => some ([], s)
  | n + 1, s =>
    match dec s with
    | none => none
    | some (a, s1) =>
      match decN dec n s1 with
      | none => none
      | some (as, s2) => some (a :: as, s2)

/-- Modelled from the spec: encode the optional provider — a presence tag,
then the peer id (named-bytes converter) and the multiaddr list
(named-bytes converter per address). -/
def encProv : Option AddrInfo → Bytes
  | none => [0]
  | some a => 1 :: (encBytes a.peerId ++ a.addrs.length :: (a.addrs.map encBytes).flatten)

/-- Modelled from the spec: decode the optional provider. -/
def decProv : Bytes → Option (Option AddrInfo × Bytes)
  | [] => none
  | 0 :: rest => some (none, rest)
  | 1 :: rest =>
    match decBytes rest with
    | none => none
    | some (pid, r1) =>
      match r1 with
      | [] => none
      | n :: r2 =>
        match decN decBytes n r2 with
        | none => none
        | some (addrs, r3) => some (some ⟨pid, addrs⟩, r3)
  | _ :: _ => none

/-- Modelled from the spec: encode one provider result — contextID and
metadata as plain bytes fields, then the provider. -/
def encRecord (r : ProviderResult) : Bytes :=
  encBytes r.contextID ++ encBytes r.metadata ++ encProv r.provider

/-- Modelled from the spec: decode one provider result. -/
def decRecord (s : Bytes) : Option (ProviderResult × Bytes) :=
  match decBytes s with
  | none => none
  | some (ctx, r1) =>
    match decBytes r1 with
    | none => none
    | some (md, r2) =>
      match decProv r2 with
      | none => none
      | some (prov, r3) => some (⟨ctx, md, prov⟩, r3)

/-- Modelled from the spec: `MarshalCBOR` — serialise provider results as
a length-prefixed list of records. -/
def MarshalCBOR (rs : List ProviderResult) : Bytes :=
  rs.length :: (rs.map encRecord).flatten

/-- Modelled from the spec: `UnmarshalCBOR` — decode a list of provider
results from CBOR-encoded bytes, requiring the input to be consumed. -/
def UnmarshalCBOR (d : Bytes) : Option (List ProviderResult) :=
  match d with
  | [] => none
  | n :: rest =>
    match decN decRecord n rest with
    | some (rs, []) => some rs
    | _ => none

/-! ## service.go: job model -/

/-- `jobType` (the three string constants). -/
inductive JobType
  | standard
  | location
  | equalsOrLocation
deriving DecidableEq, Repr

/-- The byte string of each `jobType` constant
("standard", "location", "equals_or_location" in ASCII). -/
def jobTypeStr : JobType → Bytes
  | .standard => [115, 116, 97, 110, 100, 97, 114, 100]
  | .location => [108, 111, 99, 97, 116, 105, 111, 110]
  | .equalsOrLocation =>
      [101, 113, 117, 97, 108, 115, 95, 111, 114, 95, 108, 111, 99, 97, 116, 105, 111, 110]

/-- The multicodec codes admitted in `targetClaims`
(`metadata.EqualsClaimID` etc., kept symbolic). -/
inductive ClaimCode
  | equalsClaimID
  | indexClaimID
  | locationCommitmentID
deriving DecidableEq, Repr

/-- The `targetClaims` table from service.go. -/
def targetClaims : JobType → List ClaimCode
  | .standard => [.equalsClaimID, .indexClaimID, .locationCommitmentID]
  | .location => [.locationCommitmentID]
  | .equalsOrLocation => [.indexClaimID, .locationCommitmentID]

/-- `job` from service.go. -/
structure Job where
  mh : Multihash
  indexForMh : Option Multihash
  indexProviderRecord : Option ProviderResult
  jobType : JobType
deriving DecidableEq, Repr

/-- `job.key()`: the multihash bytes, then the jobType string, then the
`indexForMh` bytes when present, concatenated. -/
def Job.key (j : Job) : Bytes :=
  j.mh ++ jobTypeStr j.jobType ++ (match j.indexForMh with | some m => m | none => [])

/-- `metadata.Range`: an offset and optional length. -/
structure MdRange where
  offset : Nat
  length : Option Nat
deriving DecidableEq, Repr

/-- One decoded metadata protocol block, as the handler's type switch sees
it: the three content-claim protocols, some other protocol that still
carries a claim CID, or a protocol that does not (`HasClaimCid` fails). -/
inductive ProtocolBlock
  | equalsClaim (claimCid : Cid) (equals : Cid)
  | indexClaim (claimCid : Cid) (index : Cid)
  | locationCommitment (claimCid : Cid) (shard : Option Cid) (range : Option MdRange)
  | otherClaim (claimCid : Cid)
  | nonClaim (code : Nat)
deriving DecidableEq, Repr

/-- The claim CID a block carries, if it is a claim protocol
(the `HasClaimCid` type assertion + `GetClaimCid`). -/
def claimCidOf : ProtocolBlock → Option Cid
  | .equalsClaim c _ => some c
  | .indexClaim c _ => some c
  | .locationCommitment c _ _ => some c
  | .otherClaim c => some c
  | .nonClaim _ => none

/-- `blobindex.ShardedDagIndexView`, reduced to what the handler uses:
`Shards().Iterator()` (the list) and per-shard `Has` (membership). -/
abbrev ShardIndex := List (Multihash × List Multihash)

/-- `providerindex.QueryKey`. -/
structure QueryKey where
  hash : Multihash
  spaces : List DID
  targets : List ClaimCode
deriving DecidableEq, Repr

/-- The environment of collaborating services: `providerIndex.Find`,
metadata decoding (`md.UnmarshalBinary` + `Protocols()` + `Get`),
`claimLookup.LookupClaim` and `blobIndexLookup.Find`. The blob lookup's
provider-record argument is the handler's `*j.indexProviderRecord`
(kept as the `Option` the job carries). -/
structure Env where
  find : QueryKey → Except Err (List ProviderResult)
  decodeMetadata : Bytes → Except Err (List ProtocolBlock)
  lookupClaim : Cid → URL → Except Err Claim
  blobFind : Bytes → Option ProviderResult → URL → Option MdRange → Except Err ShardIndex

/-- `QueryResult`: claims keyed by claim CID, indexes keyed by encoded
context ID (both Go maps, modelled as association lists with
insert-if-absent). -/
structure QueryResult where
  claims : List (Cid × Claim)
  indexes : List (Bytes × ShardIndex)
deriving DecidableEq, Repr

/-- `queryState`: the query's spaces (`q.Match.Subject`), the accumulating
result, and the visited-jobKey set. -/
structure QueryState where
  spaces : List DID
  qr : QueryResult
  visits : List Bytes
deriving DecidableEq, Repr

/-- Observable calls made by the handler, recorded alongside the state so
that call-count and call-argument claims are statable. `exec` marks a
handler body passing the visits check. -/
inductive TraceEv
  | exec (j : Job)
  | findCall (k : QueryKey)
  | claimCall (c : Cid) (u : URL)
  | blobCall (ctx : Bytes) (rec : Option ProviderResult) (u : URL) (rng : Option MdRange)
deriving DecidableEq, Repr

/-- A handler step's output: updated state, spawned jobs (in spawn order),
trace, and the error that aborted it, if any. State mutations made before
a failure are kept, as with the Go shared state. -/
structure HOut where
  st : QueryState
  spawned : List Job
  tr : List TraceEv
  err : Option Err
deriving Repr

/-- `fetchClaimUrl` — placeholder in the source, returns the zero URL. -/
def fetchClaimUrl (_provider : Option AddrInfo) (_claimCid : Cid) : URL := ()

/-- `fetchRetrievalUrl` — placeholder in the source, returns the zero URL. -/
def fetchRetrievalUrl (_provider : Option AddrInfo) (_shard : Cid) : URL := ()

/-- The claims-map CmpSwap: insert the claim iff the CID is absent. -/
def insertClaim (c : Cid) (cl : Claim) (qr : QueryResult) : QueryResult :=
  if (qr.claims.lookup c).isSome then qr else { qr with claims := qr.claims ++ [(c, cl)] }

/-- The indexes-map CmpSwap: insert the index iff the context ID is absent. -/
def insertIndex (ctx : Bytes) (idx : ShardIndex) (qr : QueryResult) : QueryResult :=
  if (qr.indexes.lookup ctx).isSome then qr else { qr with indexes := qr.indexes ++ [(ctx, idx)] }

/-- One protocol block of one provider record, as processed by the body of
the handler's inner loop: skip non-claim protocols, fetch the claim,
insert it, then dispatch on the block variant. -/
def handleBlock (env : Env) (j : Job) (r : ProviderResult) (blk : ProtocolBlock)
    (st : QueryState) : HOut :=
  match claimCidOf blk with
  | none => ⟨st, [], [], none⟩
  | some claimCid =>
    let u := fetchClaimUrl r.provider claimCid
    match env.lookupClaim claimCid u with
    | .error e => ⟨st, [], [.claimCall claimCid u], some e⟩
    | .ok claim =>
      let st1 := { st with qr := insertClaim claimCid claim st.qr }
      match blk with
      | .equalsClaim _ equals =>
        if equals.hash ≠ j.mh then
          ⟨st1, [⟨equals.hash, none, none, .location⟩], [.claimCall claimCid u], none⟩
        else
          ⟨st1, [⟨r.contextID, none, none, .location⟩], [.claimCall claimCid u], none⟩
      | .indexClaim _ index =>
        ⟨st1, [⟨index.hash, some j.mh, some r, .equalsOrLocation⟩], [.claimCall claimCid u], none⟩
      | .locationCommitment _ shard rng =>
        match j.indexForMh with
        | none => ⟨st1, [], [.claimCall claimCid u], none⟩
        | some forMh =>
          let shardCid := shard.getD (cidNewV1Raw j.mh)
          let u2 := fetchRetrievalUrl r.provider shardCid
          match env.blobFind r.contextID j.indexProviderRecord u2 rng with
          | .error e =>
            ⟨st1, [], [.claimCall claimCid u, .blobCall r.contextID j.indexProviderRecord u2 rng],
              some e⟩
          | .ok idx =>
            let st2 := { st1 with qr := insertIndex r.contextID idx st1.qr }
            let spawned := (idx.filter (fun p => p.2.contains forMh)).map
              (fun p => (⟨p.1, none, none, .equalsOrLocation⟩ : Job))
            ⟨st2, spawned,
              [.claimCall claimCid u, .blobCall r.contextID j.indexProviderRecord u2 rng], none⟩
      | .otherClaim _ => ⟨st1, [], [.claimCall claimCid u], none⟩
      | .nonClaim _ => ⟨st1, [], [.claimCall claimCid u], none⟩

/-- The handler's inner loop over a record's protocol blocks; the first
error aborts, keeping the state mutated so far. -/
def handleBlocks (env : Env) (j : Job) (r : ProviderResult) :
    List ProtocolBlock → QueryState → HOut
  | [], st => ⟨st, [], [], none⟩
  | blk :: rest, st =>
    let o := handleBlock env j r blk st
    match o.err with
    | some _ => o
    | none =>
      let o2 := handleBlocks env j r rest o.st
      ⟨o2.st, o.spawned ++ o2.spawned, o.tr ++ o2.tr, o2.err⟩

/-- The handler's outer loop over the provider records: unmarshal each
record's metadata, then process its blocks; the first error aborts. -/
def handleResults (env : Env) (j : Job) : List ProviderResult → QueryState → HOut
  | [], st => ⟨st, [], [], none⟩
  | r :: rest, st =>
    match env.decodeMetadata r.metadata with
    | .error e => ⟨st, [], [], some e⟩
    | .ok blks =>
      let o := handleBlocks env j r blks st
      match o.err with
      | some _ => o
      | none =>
        let o2 := handleResults env j rest o.st
        ⟨o2.st, o.spawned ++ o2.spawned, o.tr ++ o2.tr, o2.err⟩

/-- The `providerindex.QueryKey` the handler builds for a job. -/
def queryKeyOf (j : Job) (st : QueryState) : QueryKey :=
  ⟨j.mh, st.spaces, targetClaims j.jobType⟩

/-- `IndexingService.jobHandler`: the visits CmpSwap, then
`providerIndex.Find`, then the loops over records and blocks. -/
def handleJob (env : Env) (j : Job) (st : QueryState) : HOut :=
  if j.key ∈ st.visits then ⟨st, [], [], none⟩
  else
    let st1 := { st with visits := j.key :: st.visits }
    let k := queryKeyOf j st1
    match env.find k with
    | .error e => ⟨st1, [], [.exec j, .findCall k], some e⟩
    | .ok results =>
      let o := handleResults env j results st1
      ⟨o.st, o.spawned, .exec j :: .findCall k :: o.tr, o.err⟩

/-- Modelled from the spec: the serial JobWalker (§4.1) — the jobwalker
package is not under src/. It drains a FIFO queue on a single path; spawn
enqueues; the first handler error stops the walk and returns the
accumulated state. The fuel bounds recursion; exhaustion stops the drain. -/
def walk (env : Env) : Nat → List Job → QueryState → QueryState × List TraceEv × Option Err
  | _, [], st => (st, [], none)
  | 0, _ :: _, st => (st, [], none)
  | fuel + 1, j :: rest, st =>
    let o := handleJob env j st
    match o.err with
    | some e => (o.st, o.tr, some e)
    | none =>
      let w := walk env fuel (rest ++ o.spawned) o.st
      (w.1, o.tr ++ w.2.1, w.2.2)

/-- `Query` input: hashes and the match subject. -/
structure Query where
  hashes : List Multihash
  spaces : List DID
deriving DecidableEq, Repr

/-- The initial state `IndexingService.Query` builds. -/
def initState (q : Query) : QueryState := ⟨q.spaces, ⟨[], []⟩, []⟩

/-- `IndexingService.Query`: one standard job per input hash, walked from
the fresh state; returns the accumulated result and the walk's error. -/
def runQuery (env : Env) (fuel : Nat) (q : Query) :
    QueryResult × List TraceEv × Option Err :=
  let initial := q.hashes.map (fun h => (⟨h, none, none, .standard⟩ : Job))
  let w := walk env fuel initial (initState q)
  (w.1.qr, w.2.1, w.2.2)

/-- Keys of the jobs whose handler body executed (passed the visits check). -/
def execKeys (tr : List TraceEv) : List Bytes :=
  tr.filterMap (fun ev => match ev with | .exec j => some j.key | _ => none)

/-- Hashes passed to `providerIndex.Find`. -/
def findHashes (tr : List TraceEv) : List Multihash :=
  tr.filterMap (fun ev => match ev with | .findCall k => some k.hash | _ => none)

/-- Arguments of `blobIndexLookup.Find` calls. -/
def blobCalls (tr : List TraceEv) :
    List (Bytes × Option ProviderResult × URL × Option MdRange) :=
  tr.filterMap (fun ev => match ev with
    | .blobCall ctx rec u rng => some (ctx, rec, u, rng)
    | _ => none)

/-! ## publisher/store.go: Entries -/

/-- `schema.EntryChunk`: the chunk's multihashes and optional next link
(links modelled as opaque ids). -/
structure EntryChunk where
  entries : List Multihash
  next : Option Nat
deriving DecidableEq, Repr

/-- The datastore and chunk decoder `Entries` reads through:
`ds.Get(linksCachePath.ChildString(link))` and
`schema.BytesToEntryChunk(asCID(link), bytes)`. -/
structure EntStore where
  get : Nat → Except Err Bytes
  decodeChunk : Nat → Bytes → Except Err EntryChunk

/-- `Entries` under full consumption: walk the chunk chain from a link,
yielding each chunk's multihashes in order; a datastore or decode error
yields a single error item and stops. Fuel bounds the chain length. -/
def entriesSeq (s : EntStore) : Nat → Option Nat → List (Except Err Multihash)
  | _, none => []
  | 0, some _ => []
  | fuel + 1, some cur =>
    match s.get cur with
    | .error e => [.error e]
    | .ok v =>
      match s.decodeChunk cur v with
      | .error e => [.error e]
      | .ok ent => ent.entries.map .ok ++ entriesSeq s fuel ent.next

/-- The store holds the given chunk chain from `start` to `stop`: each
chunk's bytes are present and decode to it, and its next link continues
the chain. -/
def chainSeg (s : EntStore) : Option Nat → List EntryChunk → Option Nat → Prop
  | start, [], stop => start = stop
  | start, c :: cs, stop =>
    ∃ l v, start = some l ∧ s.get l = .ok v ∧ s.decodeChunk l v = .ok c ∧
      chainSeg s c.next cs stop

/-- The chain step at link `l` fails with `e`: either the datastore get
fails, or the bytes fail to decode as an entry chunk. -/
def failsAt (s : EntStore) (l : Nat) (e : Err) : Prop :=
  s.get l = .error e ∨ ∃ v, s.get l = .ok v ∧ s.decodeChunk l v = .error e

end Storacha

namespace Storacha

/-! ## Helper lemmas -/

/-- `Equals` is reflexive. -/
theorem equalsRefl (a : ProviderResult) : Equals a a = true := by
  rcases a with ⟨c, m, p⟩
  cases p <;> simp [Equals, equalProvider]

/-! ## C1 -/

/-- C1 counterexample: `job.key()` concatenates `mh`, the jobType string
and `indexForMh` without separators, and `"location"` is a suffix of
`"equals_or_location"`, so the jobs with mh `"aequals_or_"`/kind
`location` and mh `"a"`/kind `equals_or_location` have equal keys while
their tuples differ — key equality does not imply tuple equality. -/
theorem c1_counterexample :
    (Job.key ⟨[97, 101, 113, 117, 97, 108, 115, 95, 111, 114, 95], none, none, .location⟩ =
      Job.key ⟨[97], none, none, .equalsOrLocation⟩) ∧
    ¬ (([97, 101, 113, 117, 97, 108, 115, 95, 111, 114, 95] : Multihash) = [97] ∧
        JobType.location = JobType.equalsOrLocation ∧
        (none : Option Multihash) = (none : Option Multihash)) := by
  decide

/-- C1 (amended): `job.key()` is deterministic in the tuple
`(mh, jobType, indexForMh)` — equal tuples give equal keys (and the key
ignores `indexProviderRecord`); the converse fails (see the
counterexample). -/
theorem c1_key_deterministic (j1 j2 : Job) (h1 : j1.mh = j2.mh)
    (h2 : j1.jobType = j2.jobType) (h3 : j1.indexForMh = j2.indexForMh) :
    j1.key = j2.key := by
  unfold Job.key
  rw [h1, h2, h3]

theorem c1_witness :
    Job.key ⟨[5], some [6], none, .standard⟩ =
      Job.key ⟨[5], some [6], some ⟨[1], [2], none⟩, .standard⟩ :=
  c1_key_deterministic _ _ rfl rfl rfl

/-! ## C4 -/

/-- C4: processing an `EqualsClaim` block from record `r` spawns exactly
one follow-up job of kind `location`: with mh the equals hash when it
differs from `j.mh`, and with mh `r.contextID` (read as a multihash)
otherwise. -/
theorem c4_equals_spawn (env : Env) (j : Job) (r : ProviderResult) (c ec : Cid)
    (st : QueryState) (cl : Claim)
    (h : env.lookupClaim c (fetchClaimUrl r.provider c) = .ok cl) :
    (handleBlock env j r (.equalsClaim c ec) st).spawned =
      if ec.hash ≠ j.mh then [⟨ec.hash, none, none, .location⟩]
      else [⟨r.contextID, none, none, .location⟩] := by
  simp only [handleBlock, claimCidOf, h]
  split <;> rfl

theorem c4_witness :
    ((fun (_ : Cid) (_ : URL) => (Except.ok 0 : Except Err Claim)) ⟨85, [1]⟩
        (fetchClaimUrl none ⟨85, [1]⟩) = .ok 0) ∧
    (handleBlock
        ⟨fun _ => .ok [], fun _ => .ok [], fun _ _ => .ok 0, fun _ _ _ _ => .ok []⟩
        ⟨[7], none, none, .standard⟩ ⟨[9], [], none⟩ (.equalsClaim ⟨85, [1]⟩ ⟨85, [8]⟩)
        ⟨[], ⟨[], []⟩, []⟩).spawned = [⟨[8], none, none, .location⟩] := by
  refine ⟨rfl, ?_⟩
  have h := c4_equals_spawn
    ⟨fun _ => .ok [], fun _ => .ok [], fun _ _ => .ok 0, fun _ _ _ _ => .ok []⟩
    ⟨[7], none, none, .standard⟩ ⟨[9], [], none⟩ ⟨85, [1]⟩ ⟨85, [8]⟩
    ⟨[], ⟨[], []⟩, []⟩ 0 rfl
  simpa using h

/-! ## C7 -/

/-- C7: a metadata protocol block that carries no claim CID is skipped
silently — no error, no state change, no spawned job, no call — and the
handler's block loop gives the same output as without that block. -/
theorem c7_nonclaim_skipped :
    (∀ (env : Env) (j : Job) (r : ProviderResult) (code : Nat) (st : QueryState),
      handleBlock env j r (.nonClaim code) st = ⟨st, [], [], none⟩) ∧
    (∀ (env : Env) (j : Job) (r : ProviderResult) (code : Nat)
        (pre post : List ProtocolBlock) (st : QueryState),
      handleBlocks env j r (pre ++ .nonClaim code :: post) st =
        handleBlocks env j r (pre ++ post) st) := by
  constructor
  · intro env j r code st
    rfl
  · intro env j r code pre post st
    induction pre generalizing st with
    | nil => rfl
    | cons b bs ih =>
      simp only [List.cons_append, handleBlocks]
      cases h : (handleBlock env j r b st).err <;> simp [h, ih]

/-! ## C9 -/

/-- C9: `Equals` holds exactly when contextID and metadata are byte-equal
and the providers are both absent or both present with equal `String()`
renderings; a nil provider never equals a non-nil one, and `Equals` is
reflexive. -/
theorem c9_equals_spec :
    (∀ a b : ProviderResult, Equals a b = true ↔
      (a.contextID = b.contextID ∧ a.metadata = b.metadata ∧
        ((a.provider = none ∧ b.provider = none) ∨
          (∃ x y, a.provider = some x ∧ b.provider = some y ∧
            addrInfoString x = addrInfoString y)))) ∧
    (∀ (a b : ProviderResult) (x : AddrInfo),
      Equals { a with provider := none } { b with provider := some x } = false ∧
      Equals { b with provider := some x } { a with provider := none } = false) ∧
    (∀ a : ProviderResult, Equals a a = true) := by
  refine ⟨?_, ?_, equalsRefl⟩
  · intro a b
    rcases a with ⟨ac, am, ap⟩
    rcases b with ⟨bc, bm, bp⟩
    cases ap <;> cases bp <;>
      simp [Equals, equalProvider, and_assoc]
  · intro a b x
    constructor <;> simp [Equals, equalProvider]

end Storacha

namespace Storacha

/-! ## C8 -/

/-- Decoding inverts the byte-string encoding, leaving the tail intact. -/
theorem decBytes_enc (b t : Bytes) : decBytes (encBytes b ++ t) = some (b, t) := by
  simp [encBytes, decBytes, List.take_left, List.drop_left]

/-- Decoding a counted list inverts encoding, given the item round-trip. -/
theorem decN_enc {α : Type} (enc : α → Bytes) (dec : Bytes → Option (α × Bytes))
    (h : ∀ a t, dec (enc a ++ t) = some (a, t)) :
    ∀ (l : List α) (t : Bytes), decN dec l.length ((l.map enc).flatten ++ t) = some (l, t) := by
  intro l
  induction l with
  | nil => intro t; simp [decN]
  | cons a as ih =>
    intro t
    have harr : ((a :: as).map enc).flatten ++ t = enc a ++ ((as.map enc).flatten ++ t) := by
      simp [List.append_assoc]
    simp only [List.length_cons, harr, decN, h, ih]

/-- Decoding inverts the provider encoding. -/
theorem decProv_enc (p : Option AddrInfo) (t : Bytes) : decProv (encProv p ++ t) = some (p, t) := by
  cases p with
  | none => rfl
  | some a =>
    have harr : encProv (some a) ++ t =
        1 :: (encBytes a.peerId ++ (a.addrs.length :: ((a.addrs.map encBytes).flatten ++ t))) := by
      simp [encProv]
    rw [harr]
    simp only [decProv, decBytes_enc, decN_enc encBytes decBytes decBytes_enc]

/-- Decoding inverts the record encoding. -/
theorem decRecord_enc (r : ProviderResult) (t : Bytes) :
    decRecord (encRecord r ++ t) = some (r, t) := by
  rcases r with ⟨c, m, p⟩
  simp [encRecord, decRecord, List.append_assoc, decBytes_enc, decProv_enc]

/-- C8: unmarshalling the marshalled encoding of any provider-result list
succeeds and returns a list of the same length whose elements are
pairwise `Equals` to the originals (here the decoded list is the original
itself, and `Equals` holds by reflexivity). -/
theorem c8_roundtrip (rs : List ProviderResult) :
    ∃ rs', UnmarshalCBOR (MarshalCBOR rs) = some rs' ∧ rs'.length = rs.length ∧
      List.Forall₂ (fun a b => Equals a b = true) rs rs' := by
  refine ⟨rs, ?_, rfl, ?_⟩
  · have h := decN_enc encRecord decRecord decRecord_enc rs []
    simp only [List.append_nil] at h
    simp [UnmarshalCBOR, MarshalCBOR, h]
  · rw [List.forall₂_same]
    intro x _
    exact equalsRefl x

end Storacha

namespace Storacha

/-! ## C3 -/

/-- The empty query state (fresh visits and result). -/
def stEmpty : QueryState := ⟨[], ⟨[], []⟩, []⟩

/-- Provider record publishing the index claim in the C3 scenario. -/
def rC3a : ProviderResult := ⟨[8], [1], none⟩

/-- Provider record publishing the location commitment in the C3 scenario. -/
def rC3b : ProviderResult := ⟨[9], [2], none⟩

/-- Claim CID of the index claim in the C3 scenario. -/
def cC3a : Cid := ⟨85, [21]⟩

/-- Claim CID of the location commitment in the C3 scenario. -/
def cC3b : Cid := ⟨85, [22]⟩

/-- Environment for the C3 scenario: the standard lookup returns the
index-claim record `rC3a`; the follow-up lookup returns the distinct
location-commitment record `rC3b`. -/
def envC3 : Env where
  find := fun k => if k.targets = targetClaims .standard then .ok [rC3a] else .ok [rC3b]
  decodeMetadata := fun md =>
    if md = [1] then .ok [.indexClaim cC3a ⟨85, [2]⟩]
    else .ok [.locationCommitment cC3b none none]
  lookupClaim := fun _ _ => .ok 0
  blobFind := fun _ _ _ _ => .ok []

/-- C3 counterexample: running a full query through the source handler,
the location commitment is decoded from record `rC3b`, yet the provider
record passed to `ShardIndexLookup.Find` is `rC3a` — the saved
`j.indexProviderRecord` from the earlier index claim — and `rC3a ≠ rC3b`,
so the call does not receive "r itself". -/
theorem c3_counterexample :
    blobCalls (runQuery envC3 5 ⟨[[1]], []⟩).2.1 = [(rC3b.contextID, some rC3a, (), none)] ∧
    rC3a ≠ rC3b := by
  decide

/-- The job the C3 scenario spawns for the index multihash. -/
def jC3 : Job := ⟨[2], some [1], some rC3a, .equalsOrLocation⟩

/-- C3 (amended): when the handler processes a `LocationCommitment` block
from record `r` and `j.indexForMh` is non-nil, it calls
`ShardIndexLookup.Find` with context identifier `r.ContextID`, with
`*j.indexProviderRecord` — the provider record saved when the index claim
spawned this job — as the provider-record argument, together with the
derived retrieval URL and the block's byte range. -/
theorem c3_blob_call_args (env : Env) (j : Job) (r : ProviderResult) (c : Cid)
    (shard : Option Cid) (rng : Option MdRange) (st : QueryState) (m : Multihash) (cl : Claim)
    (hm : j.indexForMh = some m)
    (hl : env.lookupClaim c (fetchClaimUrl r.provider c) = .ok cl) :
    blobCalls (handleBlock env j r (.locationCommitment c shard rng) st).tr =
      [(r.contextID, j.indexProviderRecord,
        fetchRetrievalUrl r.provider (shard.getD (cidNewV1Raw j.mh)), rng)] := by
  simp only [handleBlock, claimCidOf, hl, hm]
  cases h : env.blobFind r.contextID j.indexProviderRecord
      (fetchRetrievalUrl r.provider (shard.getD (cidNewV1Raw j.mh))) rng <;>
    simp [h, blobCalls]

theorem c3_witness :
    jC3.indexForMh = some [1] ∧
    envC3.lookupClaim cC3b (fetchClaimUrl rC3b.provider cC3b) = .ok 0 ∧
    blobCalls (handleBlock envC3 jC3 rC3b (.locationCommitment cC3b none none) stEmpty).tr =
      [([9], some rC3a, (), none)] := by
  refine ⟨rfl, rfl, ?_⟩
  have h := c3_blob_call_args envC3 jC3 rC3b cC3b none none stEmpty [1] 0 rfl rfl
  simpa using h

/-! ## C5 -/

/-- C5: after the shard index `idx` is fetched for a location commitment
with `j.indexForMh = some m`, the spawned follow-ups are exactly one
`equalsOrLocation` job per shard whose entries contain `m`, in shard
order; equivalently a shard-key job is spawned iff some enumerated shard
with that key has entries containing `m`. -/
theorem c5_shard_spawns (env : Env) (j : Job) (r : ProviderResult) (c : Cid)
    (shard : Option Cid) (rng : Option MdRange) (st : QueryState) (m : Multihash)
    (cl : Claim) (idx : ShardIndex)
    (hm : j.indexForMh = some m)
    (hl : env.lookupClaim c (fetchClaimUrl r.provider c) = .ok cl)
    (hb : env.blobFind r.contextID j.indexProviderRecord
        (fetchRetrievalUrl r.provider (shard.getD (cidNewV1Raw j.mh))) rng = .ok idx) :
    (handleBlock env j r (.locationCommitment c shard rng) st).spawned =
      (idx.filter (fun p => p.2.contains m)).map
        (fun p => (⟨p.1, none, none, .equalsOrLocation⟩ : Job)) ∧
    ∀ sk : Multihash,
      ((⟨sk, none, none, .equalsOrLocation⟩ : Job) ∈
          (handleBlock env j r (.locationCommitment c shard rng) st).spawned ↔
        ∃ es, (sk, es) ∈ idx ∧ es.contains m = true) := by
  have hsp : (handleBlock env j r (.locationCommitment c shard rng) st).spawned =
      (idx.filter (fun p => p.2.contains m)).map
        (fun p => (⟨p.1, none, none, .equalsOrLocation⟩ : Job)) := by
    simp only [handleBlock, claimCidOf, hl, hm, hb]
  refine ⟨hsp, ?_⟩
  intro sk
  rw [hsp]
  constructor
  · intro hmem
    rcases List.mem_map.mp hmem with ⟨p, hp, hpe⟩
    rcases List.mem_filter.mp hp with ⟨hpidx, hpc⟩
    refine ⟨p.2, ?_, hpc⟩
    have h1 : p.1 = sk := congrArg Job.mh hpe
    rw [← h1]
    exact hpidx
  · rintro ⟨es, hin, hc⟩
    exact List.mem_map.mpr ⟨(sk, es), List.mem_filter.mpr ⟨hin, hc⟩, rfl⟩

/-- Environment for the C5 witness: the fetched index has one shard
containing the target multihash and one that does not. -/
def envC5 : Env where
  find := fun _ => .ok []
  decodeMetadata := fun _ => .ok []
  lookupClaim := fun _ _ => .ok 0
  blobFind := fun _ _ _ _ => .ok [([3], [[1], [13]]), ([4], [[9]])]

theorem c5_witness :
    jC3.indexForMh = some [1] ∧
    envC5.lookupClaim cC3b (fetchClaimUrl rC3b.provider cC3b) = .ok 0 ∧
    envC5.blobFind rC3b.contextID jC3.indexProviderRecord
      (fetchRetrievalUrl rC3b.provider ((none : Option Cid).getD (cidNewV1Raw jC3.mh))) none =
      .ok [([3], [[1], [13]]), ([4], [[9]])] ∧
    (handleBlock envC5 jC3 rC3b (.locationCommitment cC3b none none) stEmpty).spawned =
      [⟨[3], none, none, .equalsOrLocation⟩] := by
  refine ⟨rfl, rfl, rfl, ?_⟩
  have h := (c5_shard_spawns envC5 jC3 rC3b cC3b none none stEmpty [1] 0
    [([3], [[1], [13]]), ([4], [[9]])] rfl rfl rfl).1
  simpa using h

end Storacha

namespace Storacha

/-! ## C6 -/

/-- Environment whose provider lookup fails with `e`. -/
def envC6find (e : Err) : Env where
  find := fun _ => .error e
  decodeMetadata := fun _ => .error 0
  lookupClaim := fun _ _ => .error 0
  blobFind := fun _ _ _ _ => .error 0

/-- Environment whose metadata decoding fails with `e` (the lookup
returns one record `r`). -/
def envC6dec (e : Err) (r : ProviderResult) : Env where
  find := fun _ => .ok [r]
  decodeMetadata := fun _ => .error e
  lookupClaim := fun _ _ => .error 0
  blobFind := fun _ _ _ _ => .error 0

/-- Claim CID whose lookup succeeds in the C6 claim-failure scenario. -/
def cC6a : Cid := ⟨85, [31]⟩

/-- Claim CID whose lookup fails in the C6 claim-failure scenario. -/
def cC6b : Cid := ⟨85, [32]⟩

/-- Environment where the record carries two claim blocks; the first
claim fetch succeeds with `cl`, the second fails with `e`. -/
def envC6claim (e : Err) (cl : Claim) : Env where
  find := fun _ => .ok [⟨[1], [0], none⟩]
  decodeMetadata := fun _ => .ok [.otherClaim cC6a, .otherClaim cC6b]
  lookupClaim := fun c _ => if c = cC6a then .ok cl else .error e
  blobFind := fun _ _ _ _ => .error 0

/-- Index-claim record for the C6 blob-failure scenario. -/
def rC6a : ProviderResult := ⟨[5], [1], none⟩

/-- Location-commitment record for the C6 blob-failure scenario. -/
def rC6b : ProviderResult := ⟨[6], [2], none⟩

/-- Environment reaching the shard-index fetch, which fails with `e`:
the standard lookup yields an index claim (cid `cC6a`, claim `cl`), the
follow-up yields a location commitment (cid `cC6b`, claim `cl + 1`), and
the blob-index fetch errors. -/
def envC6blob (e : Err) (cl : Claim) : Env where
  find := fun k => if k.targets = targetClaims .standard then .ok [rC6a] else .ok [rC6b]
  decodeMetadata := fun md =>
    if md = [1] then .ok [.indexClaim cC6a ⟨85, [2]⟩]
    else .ok [.locationCommitment cC6b none none]
  lookupClaim := fun c _ => .ok (if c = cC6a then cl else cl + 1)
  blobFind := fun _ _ _ _ => .error e

/-- C6: an error from `ProviderIndex.Find`, metadata decoding,
`ClaimLookup.LookupClaim` or `BlobIndexLookup.Find` aborts the handler
and `Query` returns that error together with the partially-accumulated
`QueryResult`: the find- and decode-failure runs return the empty result;
the claim-failure run keeps the claim inserted before the failure; the
blob-failure run keeps both claims inserted before the failing index
fetch (and no index). -/
theorem c6_error_propagation :
    (∀ (e : Err) (h : Multihash),
      (runQuery (envC6find e) 5 ⟨[h], []⟩).1 = ⟨[], []⟩ ∧
      (runQuery (envC6find e) 5 ⟨[h], []⟩).2.2 = some e) ∧
    (∀ (e : Err) (r : ProviderResult) (h : Multihash),
      (runQuery (envC6dec e r) 5 ⟨[h], []⟩).1 = ⟨[], []⟩ ∧
      (runQuery (envC6dec e r) 5 ⟨[h], []⟩).2.2 = some e) ∧
    (∀ (e : Err) (cl : Claim) (h : Multihash),
      (runQuery (envC6claim e cl) 5 ⟨[h], []⟩).1 = ⟨[(cC6a, cl)], []⟩ ∧
      (runQuery (envC6claim e cl) 5 ⟨[h], []⟩).2.2 = some e) ∧
    (∀ (e : Err) (cl : Claim),
      (runQuery (envC6blob e cl) 5 ⟨[[1]], []⟩).1 = ⟨[(cC6a, cl), (cC6b, cl + 1)], []⟩ ∧
      (runQuery (envC6blob e cl) 5 ⟨[[1]], []⟩).2.2 = some e) :=
  ⟨fun _ _ => ⟨rfl, rfl⟩, fun _ _ _ => ⟨rfl, rfl⟩, fun _ _ _ => ⟨rfl, rfl⟩,
    fun _ _ => ⟨rfl, rfl⟩⟩

end Storacha

namespace Storacha

theorem handleBlock_frame (env : Env) (j : Job) (r : ProviderResult)
    (blk : ProtocolBlock) (st : QueryState) :
    (handleBlock env j r blk st).st.visits = st.visits ∧
    execKeys (handleBlock env j r blk st).tr = [] := by
  cases blk <;> simp only [handleBlock, claimCidOf] <;> repeat' split
  all_goals refine ⟨?_, ?_⟩ <;> first | rfl | trivial

end Storacha

namespace Storacha

/-- The block loop never touches the visits set and records no
execution event. -/
theorem handleBlocks_frame (env : Env) (j : Job) (r : ProviderResult)
    (blks : List ProtocolBlock) (st : QueryState) :
    (handleBlocks env j r blks st).st.visits = st.visits ∧
    execKeys (handleBlocks env j r blks st).tr = [] := by
  induction blks generalizing st with
  | nil => exact ⟨rfl, rfl⟩
  | cons b bs ih =>
    simp only [handleBlocks]
    cases h : (handleBlock env j r b st).err with
    | some e => exact handleBlock_frame env j r b st
    | none =>
      have h1 := handleBlock_frame env j r b st
      have h2 := ih (handleBlock env j r b st).st
      refine ⟨h2.1.trans h1.1, ?_⟩
      simp [execKeys, List.filterMap_append] at h1 h2 ⊢
      exact ⟨h1.2, h2.2⟩

/-- The record loop never touches the visits set and records no
execution event. -/
theorem handleResults_frame (env : Env) (j : Job) (rs : List ProviderResult)
    (st : QueryState) :
    (handleResults env j rs st).st.visits = st.visits ∧
    execKeys (handleResults env j rs st).tr = [] := by
  induction rs generalizing st with
  | nil => exact ⟨rfl, rfl⟩
  | cons r rest ih =>
    cases hd : env.decodeMetadata r.metadata with
    | error e => simp [handleResults, hd, execKeys]
    | ok blks =>
      simp only [handleResults, hd]
      cases h : (handleBlocks env j r blks st).err with
      | some e => exact handleBlocks_frame env j r blks st
      | none =>
        have h1 := handleBlocks_frame env j r blks st
        have h2 := ih (handleBlocks env j r blks st).st
        refine ⟨h2.1.trans h1.1, ?_⟩
        simp [execKeys, List.filterMap_append] at h1 h2 ⊢
        exact ⟨h1.2, h2.2⟩

/-- An already-visited job is skipped whole. -/
theorem handleJob_visited (env : Env) (j : Job) (st : QueryState)
    (hv : j.key ∈ st.visits) : handleJob env j st = ⟨st, [], [], none⟩ := by
  simp [handleJob, hv]

/-- A fresh job marks exactly its key visited and records exactly one
execution event, with its key. -/
theorem handleJob_new (env : Env) (j : Job) (st : QueryState)
    (hv : j.key ∉ st.visits) :
    (handleJob env j st).st.visits = j.key :: st.visits ∧
    execKeys (handleJob env j st).tr = [j.key] := by
  simp only [handleJob, if_neg hv]
  cases h : env.find (queryKeyOf j { st with visits := j.key :: st.visits }) with
  | error e => exact ⟨rfl, rfl⟩
  | ok results =>
    have h1 := handleResults_frame env j results { st with visits := j.key :: st.visits }
    refine ⟨h1.1, ?_⟩
    simp [execKeys] at h1 ⊢
    exact h1.2

/-- One unfolding step of the walk on a nonempty queue. -/
theorem walk_cons (env : Env) (f : Nat) (j : Job) (rest : List Job) (st : QueryState) :
    walk env (f + 1) (j :: rest) st =
      match (handleJob env j st).err with
      | some e => ((handleJob env j st).st, (handleJob env j st).tr, some e)
      | none =>
        ((walk env f (rest ++ (handleJob env j st).spawned) (handleJob env j st).st).1,
          (handleJob env j st).tr ++
            (walk env f (rest ++ (handleJob env j st).spawned) (handleJob env j st).st).2.1,
          (walk env f (rest ++ (handleJob env j st).spawned) (handleJob env j st).st).2.2) := rfl

/-- The walk's dedup invariant: the keys of executed handler bodies are
pairwise distinct, disjoint from the starting visits set, and end up in
the final visits set, which only grows. -/
theorem walk_inv (env : Env) :
    ∀ (fuel : Nat) (queue : List Job) (st : QueryState),
      (execKeys (walk env fuel queue st).2.1).Nodup ∧
      (∀ k, k ∈ execKeys (walk env fuel queue st).2.1 → k ∉ st.visits) ∧
      (∀ k, k ∈ st.visits → k ∈ (walk env fuel queue st).1.visits) ∧
      (∀ k, k ∈ execKeys (walk env fuel queue st).2.1 →
        k ∈ (walk env fuel queue st).1.visits) := by
  intro fuel
  induction fuel with
  | zero =>
    intro queue st
    cases queue <;> simp [walk, execKeys]
  | succ f ih =>
    intro queue st
    cases queue with
    | nil => simp [walk, execKeys]
    | cons j rest =>
      rw [walk_cons]
      by_cases hv : j.key ∈ st.visits
      · rw [handleJob_visited env j st hv]
        dsimp only
        rw [List.append_nil]
        exact ih rest st
      · obtain ⟨hA, hB⟩ := handleJob_new env j st hv
        cases he : (handleJob env j st).err with
        | some e =>
          simp only [hB, hA]
          refine ⟨List.nodup_singleton _, ?_, ?_, ?_⟩
          · intro k hk
            rw [List.mem_singleton] at hk
            rw [hk]; exact hv
          · intro k hk
            exact List.mem_cons_of_mem _ hk
          · intro k hk
            rw [List.mem_singleton] at hk
            rw [hk]; exact List.mem_cons_self _ _
        | none =>
          have hw := ih (rest ++ (handleJob env j st).spawned) (handleJob env j st).st
          rw [hA] at hw
          simp only [execKeys, List.filterMap_append] at *
          rw [hB]
          refine ⟨?_, ?_, ?_, ?_⟩
          · refine List.Nodup.cons ?_ hw.1
            intro hmem
            exact hw.2.1 j.key hmem (List.mem_cons_self _ _)
          · intro k hk
            rcases List.mem_cons.mp hk with hk1 | hk2
            · rw [hk1]; exact hv
            · intro hst
              exact hw.2.1 k hk2 (List.mem_cons_of_mem _ hst)
          · intro k hk
            exact hw.2.2.1 k (List.mem_cons_of_mem _ hk)
          · intro k hk
            rcases List.mem_cons.mp hk with hk1 | hk2
            · rw [hk1]
              exact hw.2.2.1 j.key (List.mem_cons_self _ _)
            · exact hw.2.2.2 k hk2

end Storacha

namespace Storacha

/-- Environment returning no provider records, for the duplicate-hash run. -/
def envC2 : Env where
  find := fun _ => .ok []
  decodeMetadata := fun _ => .error 0
  lookupClaim := fun _ _ => .error 0
  blobFind := fun _ _ _ _ => .error 0

/-- C2: within one query the handler body past the visits check executes
at most once per JobKey — the keys of the executed bodies (each of which
immediately calls `ProviderIndex.Find`) are pairwise distinct — and for
the query with hashes `[H1, H1]`, `Find` is invoked exactly once, for
`H1`. -/
theorem c2_dedup :
    (∀ (env : Env) (fuel : Nat) (q : Query),
      (execKeys (runQuery env fuel q).2.1).Nodup) ∧
    findHashes (runQuery envC2 10 ⟨[[1, 2, 3], [1, 2, 3]], []⟩).2.1 = [[1, 2, 3]] := by
  constructor
  · intro env fuel q
    exact (walk_inv env fuel (q.hashes.map (fun h => (⟨h, none, none, .standard⟩ : Job)))
      (initState q)).1
  · decide

end Storacha

namespace Storacha

/-! ## C10 -/

/-- C10: `Entries` yields, in order, every multihash of every chunk along
the chain from the root and terminates when a chunk's `Next` is nil; if
the chain reaches a link whose datastore get or chunk decode fails, it
yields the preceding entries followed by exactly one error item and
stops. -/
theorem c10_entries :
    (∀ (s : EntStore) (root : Option Nat) (cs : List EntryChunk) (fuel : Nat),
      chainSeg s root cs none → cs.length ≤ fuel →
      entriesSeq s fuel root = ((cs.map EntryChunk.entries).flatten).map .ok) ∧
    (∀ (s : EntStore) (root : Option Nat) (cs : List EntryChunk) (l : Nat) (e : Err)
        (fuel : Nat),
      chainSeg s root cs (some l) → failsAt s l e → cs.length < fuel →
      entriesSeq s fuel root = ((cs.map EntryChunk.entries).flatten).map .ok ++ [.error e]) := by
  constructor
  · intro s root cs
    induction cs generalizing root with
    | nil =>
      intro fuel hc _
      have hroot : root = none := hc
      rw [hroot]
      cases fuel <;> rfl
    | cons c cs ih =>
      intro fuel hc hlen
      obtain ⟨l, v, hroot, hget, hdec, hrest⟩ := hc
      cases fuel with
      | zero => exact absurd hlen (by simp)
      | succ f =>
        rw [hroot]
        simp only [entriesSeq, hget, hdec]
        rw [ih c.next f hrest (Nat.succ_le_succ_iff.mp hlen)]
        simp
  · intro s root cs l e
    induction cs generalizing root with
    | nil =>
      intro fuel hc hf hlen
      have hroot : root = some l := hc
      rw [hroot]
      cases fuel with
      | zero => exact absurd hlen (by simp)
      | succ f =>
        rcases hf with hget | ⟨v, hget, hdec⟩
        · simp [entriesSeq, hget]
        · simp [entriesSeq, hget, hdec]
    | cons c cs ih =>
      intro fuel hc hf hlen
      obtain ⟨l1, v, hroot, hget, hdec, hrest⟩ := hc
      cases fuel with
      | zero => exact absurd hlen (by simp)
      | succ f =>
        rw [hroot]
        simp only [entriesSeq, hget, hdec]
        rw [ih c.next f hrest hf (Nat.lt_of_succ_lt_succ hlen)]
        simp

/-- Store with a well-formed two-chunk chain rooted at link 1. -/
def sW : EntStore where
  get := fun l => if l = 1 then .ok [1] else if l = 2 then .ok [2] else .error 9
  decodeChunk := fun l _ =>
    if l = 1 then .ok ⟨[[10], [11]], some 2⟩
    else if l = 2 then .ok ⟨[[12]], none⟩ else .error 8

/-- Store whose single chunk points at a link whose get fails. -/
def sW2 : EntStore where
  get := fun l => if l = 1 then .ok [1] else .error 9
  decodeChunk := fun _ _ => .ok ⟨[[10]], some 3⟩

theorem c10_witness :
    (chainSeg sW (some 1) [⟨[[10], [11]], some 2⟩, ⟨[[12]], none⟩] none ∧
      entriesSeq sW 2 (some 1) = [.ok [10], .ok [11], .ok [12]]) ∧
    (chainSeg sW2 (some 1) [⟨[[10]], some 3⟩] (some 3) ∧ failsAt sW2 3 9 ∧
      entriesSeq sW2 2 (some 1) = [.ok [10], .error 9]) := by
  have hch1 : chainSeg sW (some 1) [⟨[[10], [11]], some 2⟩, ⟨[[12]], none⟩] none :=
    ⟨1, [1], rfl, rfl, rfl, 2, [2], rfl, rfl, rfl, rfl⟩
  have hch2 : chainSeg sW2 (some 1) [⟨[[10]], some 3⟩] (some 3) :=
    ⟨1, [1], rfl, rfl, rfl, rfl⟩
  have hf2 : failsAt sW2 3 9 := Or.inl rfl
  refine ⟨⟨hch1, ?_⟩, ⟨hch2, hf2, ?_⟩⟩
  · have h := c10_entries.1 sW (some 1) [⟨[[10], [11]], some 2⟩, ⟨[[12]], none⟩] 2 hch1
      (by decide)
    simpa using h
  · have h := c10_entries.2 sW2 (some 1) [⟨[[10]], some 3⟩] 3 9 2 hch2 hf2 (by decide)
    simpa using h

end Storacha
